import Mathlib

/-!
# A verification development for the wcs-rs header-resolution pipeline

Shallow embedding of the core of `wcs-rs` (files `src/header.rs`,
`src/coo_system.rs`, `src/projection.rs`, `src/sip.rs`) into Lean 4.

Modelling conventions:
* Rust `f64` card values are modelled as exact rationals (`ℚ`); the decimal
  grammar of `f64::from_str` is embedded exactly for finite decimal /
  scientific literals (the special `inf` / `NaN` spellings are not modelled —
  no statement here depends on them, and they have no rational denotation).
* Angles: `to_radians` multiplies by `π/180`.  Radian-valued fields are
  represented by the exact rational multiple of `π`, i.e. the embedding of
  `x.to_radians()` is `x / 180` (denoting `(x/180)·π` radians).  This is exact
  and injective, so every statement about which card a stored angle came from
  is faithful.
* Rust text is modelled as `List Char`; `&s[a..b]` byte slicing is modelled by
  character slicing (header text is ASCII: for ASCII the two coincide).
* A Rust panic (`unwrap` on a failed parse, out-of-bounds slicing) is modelled
  by `Except HeaderPanic _`.
* `HashMap<String, f64>` is modelled by its observable behaviour: a lookup
  function `String → Option ℚ`, with inserts overriding.
-/

set_option autoImplicit false

/-- Decidable equality on `Except`, so that concrete resolver results can be
checked by `decide`. -/
instance {ε α : Type _} [DecidableEq ε] [DecidableEq α] : DecidableEq (Except ε α) :=
  fun x y =>
    match x, y with
    | .error e, .error f =>
        if h : e = f then isTrue (congrArg Except.error h)
        else isFalse (fun he => h (Except.error.inj he))
    | .ok a, .ok b =>
        if h : a = b then isTrue (congrArg Except.ok h)
        else isFalse (fun he => h (Except.ok.inj he))
    | .error _, .ok _ => isFalse (fun he => Except.noConfusion he)
    | .ok _, .error _ => isFalse (fun he => Except.noConfusion he)

namespace Wcs

/-- The unicode code points with the `White_Space` property, as removed by
Rust's `str::trim` (`char::is_whitespace`). -/
def wsCodes : List Nat :=
  [0x09, 0x0A, 0x0B, 0x0C, 0x0D, 0x20, 0x85, 0xA0, 0x1680,
   0x2000, 0x2001, 0x2002, 0x2003, 0x2004, 0x2005, 0x2006, 0x2007,
   0x2008, 0x2009, 0x200A, 0x2028, 0x2029, 0x202F, 0x205F, 0x3000]

/-- Embedding of Rust `char::is_whitespace`. -/
def isRustWhitespace (c : Char) : Bool :=
  wsCodes.contains c.toNat

/-- Embedding of Rust `str::trim` on character lists: whitespace is removed
from the front and from the back. -/
def trimChars (l : List Char) : List Char :=
  ((l.dropWhile isRustWhitespace).reverse.dropWhile isRustWhitespace).reverse

/-- `str::trim` on `String`. -/
def trimString (s : String) : String :=
  String.mk (trimChars s.data)

/-- ASCII decimal digit test. -/
def isDigitChar (c : Char) : Bool :=
  48 ≤ c.toNat && c.toNat ≤ 57

/-- Numeric value of a digit run (most significant first). -/
def natOfDigits (l : List Char) : Nat :=
  l.foldl (fun acc c => 10 * acc + (c.toNat - 48)) 0

/-- Embedding of Rust `str::parse::<u64>()`: an optional `+` sign followed by
at least one ASCII digit, and the value must fit in 64 bits (Rust reports
`PosOverflow` otherwise, which `unwrap` turns into a panic just like an
invalid digit). -/
def parseU64 (l0 : List Char) : Option Nat :=
  let l := match l0 with
           | c :: rest => if c = '+' then rest else l0
           | [] => []
  if l = [] then none
  else if !(l.all isDigitChar) then none
  else
    let n := natOfDigits l
    if n < 2 ^ 64 then some n else none

/-- Embedding of Rust `str::parse::<f64>()` on its finite-decimal grammar:
`[+-]? (digits [. digits?] | . digits) ([eE] [+-]? digits)?`, with the value
taken exactly (the `inf`/`infinity`/`NaN` spellings are not modelled). -/
def parseF64 (l0 : List Char) : Option ℚ :=
  let sl : ℚ × List Char :=
    match l0 with
    | c :: rest => if c = '+' then (1, rest) else if c = '-' then (-1, rest) else (1, l0)
    | [] => (1, [])
  let sgn := sl.1
  let l1 := sl.2
  let ip := l1.takeWhile isDigitChar
  let r1 := l1.dropWhile isDigitChar
  let fr : List Char × List Char :=
    match r1 with
    | c :: rest =>
        if c = '.' then (rest.takeWhile isDigitChar, rest.dropWhile isDigitChar)
        else ([], r1)
    | [] => ([], [])
  let fp := fr.1
  let r2 := fr.2
  if ip = [] && fp = [] then none
  else
    let mant : ℚ := (natOfDigits ip : ℚ) + (natOfDigits fp : ℚ) / ((10 : ℚ) ^ fp.length)
    match r2 with
    | [] => some (sgn * mant)
    | c :: rest =>
        if c = 'e' ∨ c = 'E' then
          let se : Bool × List Char :=
            match rest with
            | d :: rr => if d = '+' then (false, rr) else if d = '-' then (true, rr) else (false, rest)
            | [] => (false, [])
          let eneg := se.1
          let edig := se.2
          if edig = [] then none
          else if !(edig.all isDigitChar) then none
          else
            let scale : ℚ := (10 : ℚ) ^ natOfDigits edig
            some (sgn * (if eneg then mant / scale else mant * scale))
        else none

/-- Truncation toward zero, the embedding of Rust's `as i64` cast of an
in-range value. -/
def ratTrunc (q : ℚ) : Int :=
  Int.tdiv q.num (q.den : Int)

/-- Splits a character list at the first occurrence of the (nonempty)
separator `sep`, returning the text before it and the text after it; `none`
when the separator does not occur.  This is the engine behind the embedding
of Rust's `str::split`: the split iterator's first two items are the text
before the first occurrence and the text between the first and the second. -/
def splitFirstSep (sep : List Char) : List Char → Option (List Char × List Char)
  | [] => none
  | c :: rest =>
      if sep.isPrefixOf (c :: rest) then some ([], (c :: rest).drop sep.length)
      else (splitFirstSep sep rest).map (fun pr => (c :: pr.1, pr.2))

/-- The separator `"= "` of `WCSHeader::new`. -/
def kvSep : List Char := ['=', ' ']

/-- First two items of `line.split("= ")`, as consumed by `WCSHeader::new`:
`none` when the line holds no `"= "` (the record is skipped), otherwise the
key text and the value text (the value stops at the next `"= "`, matching the
iterator's second item). -/
def keyValue (line : List Char) : Option (List Char × List Char) :=
  match splitFirstSep kvSep line with
  | none => none
  | some (k, rest) =>
      let v := match splitFirstSep kvSep rest with
               | some (v2, _) => v2
               | none => rest
      some (k, v)

/-- Modelled from the spec: the error type of the crate (`src/error.rs` is not
part of the sources provided); its variants follow the error taxonomy of the
spec (§7) and every construction site in the provided sources. -/
inductive Error where
  | mandatoryWCSKeywordsMissing : String → Error
  | unrecognizedRadeSys : String → Error
  | initProjection : String → String → Error
  | unsupportedProjection : String → Error
deriving DecidableEq

/-- The two ways `WCSHeader::new` can panic: the 80-character slice
`&s[offset..offset + 80]` reaching beyond the end of the input, and
`value.parse().unwrap()` on a malformed `NAXIS1`/`NAXIS2` value. -/
inductive HeaderPanic where
  | outOfBounds
  | naxisParse
deriving DecidableEq

/-- The `WCSHeader` struct of `src/header.rs`.  The `radesys` field is
modelled from the spec: the provided `src/header.rs` does not contain the
`get_radesys` accessor used by `src/coo_system.rs`, so the storage backing it
(the string value of the `RADESYS` card, quotes stripped, as for `CTYPE*`) is
reconstructed from the spec (§4.2, §6). -/
structure WCSHeader where
  naxis1 : Nat
  naxis2 : Nat
  ctype1 : String
  ctype2 : String
  radesys : Option String
  cards : String → Option ℚ

/-- The state `WCSHeader::new` starts from: zero axes, empty type codes, no
cards. -/
def emptyHeader : WCSHeader :=
  ⟨0, 0, "", "", none, fun _ => none⟩

/-- The single quote character, stripped from `CTYPE*` values by
`.replace("'", "")`. -/
def quoteChar : Char := Char.ofNat 39

/-- Processing of one 80-character record by the loop body of
`WCSHeader::new` (src/header.rs lines 29-55): split on `"= "`, skip the
record when the separator is absent, trim the key, strip an inline comment
(everything from the first `/`) and trim the value, then dispatch on the key.
The `RADESYS` arm is modelled from the spec (see `WCSHeader.radesys`); every
other arm is a direct transcription. -/
def processLine (st : WCSHeader) (line : List Char) : Except HeaderPanic WCSHeader :=
  match keyValue line with
  | none => .ok st
  | some (k, v) =>
      let key := trimChars k
      let value := trimChars (v.takeWhile (fun c => c ≠ '/'))
      if key = "NAXIS1".data then
        match parseU64 value with
        | some n => .ok { st with naxis1 := n }
        | none => .error .naxisParse
      else if key = "NAXIS2".data then
        match parseU64 value with
        | some n => .ok { st with naxis2 := n }
        | none => .error .naxisParse
      else if key = "CTYPE1".data then
        .ok { st with ctype1 := String.mk (value.filter (fun c => c ≠ quoteChar)) }
      else if key = "CTYPE2".data then
        .ok { st with ctype2 := String.mk (value.filter (fun c => c ≠ quoteChar)) }
      else if key = "RADESYS".data then
        .ok { st with radesys := some (String.mk (value.filter (fun c => c ≠ quoteChar))) }
      else
        match parseF64 value with
        | some q =>
            .ok { st with cards := fun kk => if kk = String.mk key then some q else st.cards kk }
        | none => .ok st

/-- The `while offset < s.len()` loop of `WCSHeader::new`.  Each iteration
slices `&s[offset..offset + 80]` — which panics (`outOfBounds`) when fewer
than 80 characters remain — processes the record and advances by 80.  The
loop is driven by a fuel argument so that the definition is structurally
recursive; every caller passes `fuel = l.length`, which is sufficient because
each iteration consumes 80 > 0 characters, so the fuel-exhaustion arm is
unreachable there. -/
def parseSteps : Nat → WCSHeader → List Char → Except HeaderPanic WCSHeader
  | _, st, [] => .ok st
  | 0, st, _ :: _ => .ok st
  | fuel + 1, st, c :: rest =>
      if (c :: rest).length < 80 then .error .outOfBounds
      else
        match processLine st ((c :: rest).take 80) with
        | .error e => .error e
        | .ok st' => parseSteps fuel st' ((c :: rest).drop 80)

/-- `WCSHeader::new` (src/header.rs lines 16-65). -/
def WCSHeader.new (s : String) : Except HeaderPanic WCSHeader :=
  parseSteps s.data.length emptyHeader s.data

/-- `WCSHeader::get_naxisn` (src/header.rs lines 67-80). -/
def WCSHeader.get_naxisn (h : WCSHeader) (idx : Nat) : Option Nat :=
  let value := match idx with
               | 1 => h.naxis1
               | 2 => h.naxis2
               | _ => 0
  if value > 0 then some value else none

/-- `WCSHeader::get_ctype` (src/header.rs lines 82-94). -/
def WCSHeader.get_ctype (h : WCSHeader) (idx : Nat) : Except Error String :=
  let value := match idx with
               | 1 => h.ctype1
               | 2 => h.ctype2
               | _ => ""
  if value = "" then .error (.mandatoryWCSKeywordsMissing "CTYPE")
  else .ok value

/-- `WCSHeader::get_float` (src/header.rs lines 96-102): the lookup key is
trimmed, and a present card is always returned as `Some(Ok(v))`. -/
def WCSHeader.get_float (h : WCSHeader) (key : String) : Option (Except Error ℚ) :=
  (h.cards (trimString key)).map .ok

/-- Modelled from the spec: `WCSHeader::get_int`, used by
`retrieve_sip_coeffs` (src/sip.rs line 16) for the `<tag>_ORDER` cards, is
not in the provided `src/header.rs`.  Following the spec (§4.4: the order
keyword is looked up in the numeric-card mapping; absent means the family is
absent) and the shape of `get_float`, it reads the trimmed key from the card
mapping and truncates the stored value to an integer. -/
def WCSHeader.get_int (h : WCSHeader) (key : String) : Option (Except Error Int) :=
  (h.cards (trimString key)).map (fun v => .ok (ratTrunc v))

/-- Modelled from the spec: `WCSHeader::get_radesys`, used by
`RadeSys::parse` (src/coo_system.rs line 20), is not in the provided
`src/header.rs`.  Following the spec (§4.2, §7) it returns the stored
`RADESYS` string, or a `MandatoryWCSKeywordsMissing` error when the card is
absent (an error here makes `CooSystem::parse` fall through to the
heuristic). -/
def WCSHeader.get_radesys (h : WCSHeader) : Except Error String :=
  match h.radesys with
  | some r => .ok r
  | none => .error (.mandatoryWCSKeywordsMissing "RADESYS")

/-! ## Reference frame resolver (`src/coo_system.rs`) -/

/-- The `RadeSys` enum (src/coo_system.rs lines 5-16). -/
inductive RadeSys where
  | ICRS
  | Fk5
  | Fk4
  | Fk4NoE
  | GAPPT
deriving DecidableEq

/-- `RadeSys::parse` (src/coo_system.rs lines 18-31): the `RADESYS` string is
matched against the fixed five-entry table; anything else is an
`UnrecognizedRadeSys` error carrying the string. -/
def RadeSys.parse (header : WCSHeader) : Except Error RadeSys :=
  match header.get_radesys with
  | .error e => .error e
  | .ok radesys =>
      if radesys = "ICRS" then .ok RadeSys.ICRS
      else if radesys = "FK5" then .ok RadeSys.Fk5
      else if radesys = "FK4" then .ok RadeSys.Fk4
      else if radesys = "FK4-NO-E" then .ok RadeSys.Fk4NoE
      else if radesys = "GAPPT" then .ok RadeSys.GAPPT
      else .error (.unrecognizedRadeSys radesys)

/-- The `CooSystem` enum (src/coo_system.rs lines 33-40). -/
inductive CooSystem where
  | EQUATORIAL
  | GALACTIC
  | ECLIPTIC
  | HELIOECLIPTIC
  | SUPERGALACTIC
  | CUSTOM : RadeSys → ℚ → CooSystem
deriving DecidableEq

/-- `CooSystem::parse` (src/coo_system.rs lines 42-68): read `EQUINOX` and
`RADESYS`; when both succeed the result is `CUSTOM`; otherwise fall back to
dispatching on the first byte of `CTYPE1` (after `get_ctype`, which fails
when `CTYPE1` is empty — `ctype1.as_bytes()[0]` is therefore in bounds, and
the `headD` default below is unreachable). -/
def CooSystem.parse (header : WCSHeader) : Except Error CooSystem :=
  let equinox : Except Error ℚ :=
    match header.get_float "EQUINOX" with
    | some (.ok equinox) => .ok equinox
    | _ => .error (.mandatoryWCSKeywordsMissing "EQUINOX")
  let radesys := RadeSys.parse header
  match radesys, equinox with
  | .ok radesys, .ok equinox => .ok (.CUSTOM radesys equinox)
  | _, _ =>
      match header.get_ctype 1 with
      | .error e => .error e
      | .ok ctype1 =>
          let c := ctype1.data.headD (Char.ofNat 0)
          if c = 'G' then .ok .GALACTIC
          else if c = 'E' then .ok .ECLIPTIC
          else if c = 'H' then .ok .HELIOECLIPTIC
          else if c = 'S' then .ok .SUPERGALACTIC
          else .ok .EQUATORIAL

/-! ## Projection resolver (`src/projection.rs`)

Only the variants the statements below are about are embedded: the four conic
projections (`COP`, `COE`, `COD`, `COO`) and the coefficient pipeline of
`ZPN`.  The external `mapproj` constructors (`Cop::from_params`, ...) only
store the already-converted parameters, so the conic structures carry exactly
those. -/

/-- `f64::to_radians` under the exact-multiple-of-π representation of
radians: `x` degrees is `(x/180)·π` radians, represented by `x / 180`. -/
def toRadians (deg : ℚ) : ℚ :=
  deg / 180

/-- Modelled from the spec: the `NAME` constants live in the external
`mapproj` crate; the spec (§4.3, §7) identifies projections by their
two-to-four-letter WCS codes, so those are used as the names carried by
`InitProjection` errors. -/
def conicNames : List String := ["COP", "COE", "COD", "COO"]

/-- The shared body of the four conic `parse_internal_proj_params`
implementations (src/projection.rs lines 231-309; the four are textually
identical up to the projection type and name): `PV_1` (`theta_a`, degrees)
has no default and its absence is an `InitProjection` error; `PV_2` (`eta`,
degrees) defaults to `0`; both are converted to radians. -/
def parseConicParams (name : String) (header : WCSHeader) : Except Error (ℚ × ℚ) :=
  match header.get_float "PV_1    " with
  | some theta_a =>
      match theta_a with
      | .error e => .error e
      | .ok theta_a =>
          match (header.get_float "PV_2    ").getD (.ok 0) with
          | .error e => .error e
          | .ok eta => .ok (toRadians theta_a, toRadians eta)
  | none =>
      .error (.initProjection name
        "PV_1 = theta_a must be defined as it has no default value")

/-- The `Cop` parameter set (conic perspective), angles in radians. -/
structure Cop where
  theta_a : ℚ
  eta : ℚ
deriving DecidableEq

/-- The `Coe` parameter set (conic equal-area), angles in radians. -/
structure Coe where
  theta_a : ℚ
  eta : ℚ
deriving DecidableEq

/-- The `Cod` parameter set (conic equidistant), angles in radians. -/
structure Cod where
  theta_a : ℚ
  eta : ℚ
deriving DecidableEq

/-- The `Coo` parameter set (conic orthomorphic), angles in radians. -/
structure Coo where
  theta_a : ℚ
  eta : ℚ
deriving DecidableEq

/-- `<Cop as WCSCanonicalProjection>::parse_internal_proj_params`
(src/projection.rs lines 231-249). -/
def Cop.parse_internal_proj_params (header : WCSHeader) : Except Error Cop :=
  (parseConicParams "COP" header).map (fun p => ⟨p.1, p.2⟩)

/-- `<Coe as WCSCanonicalProjection>::parse_internal_proj_params`
(src/projection.rs lines 251-269). -/
def Coe.parse_internal_proj_params (header : WCSHeader) : Except Error Coe :=
  (parseConicParams "COE" header).map (fun p => ⟨p.1, p.2⟩)

/-- `<Cod as WCSCanonicalProjection>::parse_internal_proj_params`
(src/projection.rs lines 271-289). -/
def Cod.parse_internal_proj_params (header : WCSHeader) : Except Error Cod :=
  (parseConicParams "COD" header).map (fun p => ⟨p.1, p.2⟩)

/-- `<Coo as WCSCanonicalProjection>::parse_internal_proj_params`
(src/projection.rs lines 291-309). -/
def Coo.parse_internal_proj_params (header : WCSHeader) : Except Error Coo :=
  (parseConicParams "COO" header).map (fun p => ⟨p.1, p.2⟩)

/-- The 21 `ZPN` coefficient keys, with their fixed-width padding, exactly as
listed in src/projection.rs lines 118-122. -/
def zpnKeys : List String :=
  ["PV_0    ", "PV_1    ", "PV_2    ", "PV_3    ", "PV_4    ", "PV_5    ",
   "PV_6    ", "PV_7    ", "PV_8    ", "PV_9    ", "PV_10   ", "PV_11   ",
   "PV_12   ", "PV_13   ", "PV_14   ", "PV_15   ", "PV_16   ", "PV_17   ",
   "PV_18   ", "PV_19   ", "PV_20   "]

/-- The `skip_while` predicate of the `ZPN` pipeline (src/projection.rs lines
126-134): skip an entry when the key is absent or the stored value is an
error. -/
def zpnSkip (v : Option (Except Error ℚ)) : Bool :=
  match v with
  | some (.error _) => true
  | some (.ok _) => false
  | none => true

/-- Rust's `collect::<Result<Vec<_>, _>>()`: the first error aborts,
otherwise the values are collected in order. -/
def collectE (l : List (Except Error ℚ)) : Except Error (List ℚ) :=
  match l with
  | [] => .ok []
  | x :: xs =>
      match x with
      | .error e => .error e
      | .ok v => (collectE xs).map (fun vs => v :: vs)

/-- The coefficient pipeline of
`<Zpn as WCSCanonicalProjection>::parse_internal_proj_params`
(src/projection.rs lines 117-138): look the 21 keys up from `PV_20` downward,
skip the unbroken trailing run of absent/unparsable entries, default the
remaining absent entries to `0.0`, collect, and reverse back to ascending
order.  The subsequent `Zpn::from_params` validity check (polynomial
non-negativity over `[0, π]`) lives in the external `mapproj` crate and is
outside this embedding. -/
def Zpn.parseCoeffs (header : WCSHeader) : Except Error (List ℚ) :=
  (collectE (((zpnKeys.reverse.map header.get_float).dropWhile zpnSkip).map
      (fun v => v.getD (.ok 0)))).map List.reverse

/-! ## Distortion resolver (`src/sip.rs`) -/

/-- `mapproj::sip::SipCoeff`: the coefficient storage (external type; only
its construction from an ordered coefficient list is relevant here). -/
structure SipCoeff where
  coeffs : List ℚ
deriving DecidableEq

/-- `mapproj::sip::SipAB`: the pair of per-axis coefficient grids. -/
structure SipAB where
  a : SipCoeff
  b : SipCoeff
deriving DecidableEq

/-- `mapproj::sip::Sip`: forward grids, optional inverse grids, and the
validity intervals `u`, `v` (each a closed interval, stored as its two
endpoints). -/
structure Sip where
  ab_proj : SipAB
  ab_deproj : Option SipAB
  u : ℚ × ℚ
  v : ℚ × ℚ
deriving DecidableEq

/-- Rust's `(0..=n)` for a signed bound: empty when `n < 0`, else
`0, 1, ..., n`. -/
def rangeIncl (n : Int) : List Int :=
  (List.range (n + 1).toNat).map Int.ofNat

/-- The `(i, j)` enumeration of `retrieve_sip_coeffs` (src/sip.rs lines
19-21): the square `(0..=n) × (0..=n)`, filtered by `i + j <= n`. -/
def sipPairs (n : Int) : List (Int × Int) :=
  ((rangeIncl n).flatMap (fun i => (rangeIncl n).map (fun j => (i, j)))).filter
    (fun p => p.1 + p.2 ≤ n)

/-- The `"<tag>_ORDER "` keyword (src/sip.rs line 14), trailing space
included. -/
def orderKey (id : String) : String :=
  id ++ "_ORDER "

/-- The `"<tag>_<i>_<j>   "` coefficient keyword (src/sip.rs line 23),
trailing padding included. -/
def coeffKey (id : String) (i j : Int) : String :=
  id ++ "_" ++ toString i ++ "_" ++ toString j ++ "   "

/-- `retrieve_sip_coeffs` (src/sip.rs lines 13-35): when the order keyword is
absent the family is absent (`Ok(None)`); otherwise every enumerated
coefficient is read with default `0.0` and collected. -/
def retrieve_sip_coeffs (header : WCSHeader) (id : String) :
    Except Error (Option SipCoeff) :=
  match header.get_int (orderKey id) with
  | some num_order =>
      match num_order with
      | .error e => .error e
      | .ok num_order =>
          (collectE ((sipPairs num_order).map (fun p =>
              (header.get_float (coeffKey id p.1 p.2)).getD (.ok 0)))).map
            (fun cs => some ⟨cs⟩)
  | none => .ok none

/-- `parse_sip` (src/sip.rs lines 37-62): the forward `A`/`B` grids default
to empty when absent; the inverse pair is kept only when both `AP` and `BP`
are present; the validity intervals need both axis lengths. -/
def parse_sip (header : WCSHeader) (crpix1 crpix2 : ℚ) : Except Error Sip :=
  match retrieve_sip_coeffs header "A" with
  | .error e => .error e
  | .ok a_opt =>
    match retrieve_sip_coeffs header "B" with
    | .error e => .error e
    | .ok b_opt =>
      match retrieve_sip_coeffs header "AP" with
      | .error e => .error e
      | .ok ap_coeffs =>
        match retrieve_sip_coeffs header "BP" with
        | .error e => .error e
        | .ok bp_coeffs =>
          let a_coeffs := a_opt.getD ⟨[]⟩
          let b_coeffs := b_opt.getD ⟨[]⟩
          let ab_proj : SipAB := ⟨a_coeffs, b_coeffs⟩
          let ab_deproj : Option SipAB :=
            match ap_coeffs, bp_coeffs with
            | some ap_coeffs, some bp_coeffs => some ⟨ap_coeffs, bp_coeffs⟩
            | _, _ => none
          match header.get_naxisn 1 with
          | none => .error (.mandatoryWCSKeywordsMissing "NAXIS1")
          | some naxis1 =>
            match header.get_naxisn 2 with
            | none => .error (.mandatoryWCSKeywordsMissing "NAXIS2")
            | some naxis2 =>
              .ok ⟨ab_proj, ab_deproj,
                   (-crpix1, (naxis1 : ℚ) - crpix1),
                   (-crpix2, (naxis2 : ℚ) - crpix2)⟩

/-! ## Helper lemmas -/

/-- A `get_float` lookup is never a present-but-error value: the accessor
wraps every stored card in `Ok`. -/
theorem get_float_cases (h : WCSHeader) (key : String) :
    h.get_float key = none ∨ ∃ v : ℚ, h.get_float key = some (.ok v) := by
  unfold WCSHeader.get_float
  cases h.cards (trimString key) with
  | none => exact Or.inl rfl
  | some v => exact Or.inr ⟨v, rfl⟩

/-- Likewise for `get_int`: a present order card is always `Ok`. -/
theorem get_int_cases (h : WCSHeader) (key : String) :
    h.get_int key = none ∨ ∃ v : Int, h.get_int key = some (.ok v) := by
  unfold WCSHeader.get_int
  cases h.cards (trimString key) with
  | none => exact Or.inl rfl
  | some v => exact Or.inr ⟨ratTrunc v, rfl⟩

/-- Collecting a list of defaulted lookups never fails when every entry is
absent or `Ok`, and the values come out in order with absent entries
defaulted to `0`. -/
theorem collectE_map_getD (l : List (Option (Except Error ℚ)))
    (hgood : ∀ x ∈ l, x = none ∨ ∃ v : ℚ, x = some (.ok v)) :
    collectE (l.map (fun v => v.getD (.ok 0))) =
      .ok (l.map (fun v => match v with | some (.ok x) => x | _ => 0)) := by
  induction l with
  | nil => rfl
  | cons a t ih =>
      have ha := hgood a (List.mem_cons_self a t)
      have ht := ih (fun x hx => hgood x (List.mem_cons_of_mem a hx))
      rcases ha with rfl | ⟨v, rfl⟩ <;> simp [collectE, ht, Except.map]

/-- `dropWhile` is idempotent. -/
theorem dropWhile_dropWhile {α : Type _} (p : α → Bool) (l : List α) :
    (l.dropWhile p).dropWhile p = l.dropWhile p := by
  induction l with
  | nil => rfl
  | cons a t ih =>
      by_cases h : p a = true
      · simp [List.dropWhile_cons, h, ih]
      · simp [List.dropWhile_cons, h]

/-- A prefix of a list that `dropWhile` leaves unchanged is itself left
unchanged. -/
theorem dropWhile_eq_self_of_append {α : Type _} {p : α → Bool} {pre rest : List α}
    (hm : (pre ++ rest).dropWhile p = pre ++ rest) : pre.dropWhile p = pre := by
  cases pre with
  | nil => rfl
  | cons a t =>
      have hlen : (List.dropWhile p (t ++ rest)).length ≤ (t ++ rest).length :=
        (List.dropWhile_sublist p).length_le
      by_cases h : p a = true
      · rw [List.cons_append, List.dropWhile_cons, if_pos h] at hm
        have hlen2 := congrArg List.length hm
        simp only [List.length_append, List.length_cons] at hlen hlen2
        omega
      · simp [List.dropWhile_cons, h]

/-- `str::trim` is idempotent. -/
theorem trimChars_idem (l : List Char) : trimChars (trimChars l) = trimChars l := by
  set p := isRustWhitespace with hp
  set m := l.dropWhile p with hmdef
  have hm : m.dropWhile p = m := dropWhile_dropWhile p l
  have hd : trimChars l = ((m.reverse.dropWhile p).reverse : List Char) := rfl
  have hsplit : m = (m.reverse.dropWhile p).reverse ++ (m.reverse.takeWhile p).reverse := by
    conv_lhs => rw [← List.reverse_reverse m, ← List.takeWhile_append_dropWhile p m.reverse]
    rw [List.reverse_append]
  have hfront : ((m.reverse.dropWhile p).reverse : List Char).dropWhile p
      = (m.reverse.dropWhile p).reverse := by
    exact dropWhile_eq_self_of_append (hsplit ▸ hm)
  rw [hd]
  show ((((m.reverse.dropWhile p).reverse.dropWhile p).reverse.dropWhile p).reverse : List Char)
      = (m.reverse.dropWhile p).reverse
  rw [hfront, List.reverse_reverse, dropWhile_dropWhile]

/-- `str::trim` on `String` is idempotent. -/
theorem trimString_idem (s : String) : trimString (trimString s) = trimString s := by
  unfold trimString
  exact congrArg String.mk (trimChars_idem s.data)

/-! ## C9 and C10 -/

/-- C9: every value stored in the card mapping is returned by `get_float` as
`Some(Ok(v))` or not at all — the present-but-error result is never produced,
so every error-propagation branch on a present card in the projection and
distortion resolvers is unreachable: the defaulted lookup always yields `Ok`,
a conic parse can only fail with its own `InitProjection` error, the `ZPN`
coefficient pipeline never fails, and the SIP coefficient collection never
fails. -/
theorem get_float_never_present_error (h : WCSHeader) :
    (∀ key : String, h.get_float key = none ∨ ∃ v : ℚ, h.get_float key = some (.ok v))
    ∧ (∀ key : String, ∀ d : ℚ, ∃ v : ℚ, (h.get_float key).getD (.ok d) = .ok v)
    ∧ (∀ name : String, ∀ e : Error, parseConicParams name h = .error e →
        e = .initProjection name "PV_1 = theta_a must be defined as it has no default value")
    ∧ (Zpn.parseCoeffs h).isOk = true
    ∧ (∀ (n : Int) (id : String), ∃ cs : List ℚ,
        collectE ((sipPairs n).map (fun p =>
          (h.get_float (coeffKey id p.1 p.2)).getD (.ok 0))) = .ok cs) := by
  have hshape := get_float_cases h
  refine ⟨hshape, ?_, ?_, ?_, ?_⟩
  · intro key d
    rcases hshape key with hk | ⟨v, hk⟩
    · exact ⟨d, by rw [hk]; rfl⟩
    · exact ⟨v, by rw [hk]; rfl⟩
  · intro name e hpe
    unfold parseConicParams at hpe
    rcases hshape "PV_1    " with hk | ⟨v, hk⟩
    · rw [hk] at hpe
      exact (Except.error.inj hpe).symm
    · rw [hk] at hpe
      rcases hshape "PV_2    " with hk2 | ⟨w, hk2⟩ <;> rw [hk2] at hpe <;> simp at hpe
  · unfold Zpn.parseCoeffs
    have hgood : ∀ x ∈ (zpnKeys.reverse.map h.get_float).dropWhile zpnSkip,
        x = none ∨ ∃ v : ℚ, x = some (.ok v) := by
      intro x hx
      have hx' : x ∈ zpnKeys.reverse.map h.get_float :=
        (List.dropWhile_sublist zpnSkip).subset hx
      rcases List.mem_map.mp hx' with ⟨key, _, rfl⟩
      exact hshape key
    rw [collectE_map_getD _ hgood]
    rfl
  · intro n id
    have hgood : ∀ x ∈ (sipPairs n).map (fun p => h.get_float (coeffKey id p.1 p.2)),
        x = none ∨ ∃ v : ℚ, x = some (.ok v) := by
      intro x hx
      rcases List.mem_map.mp hx with ⟨p, _, rfl⟩
      exact hshape _
    have hc := collectE_map_getD _ hgood
    rw [List.map_map] at hc
    exact ⟨_, hc⟩

/-- C10: `get_float` is insensitive to surrounding whitespace on the lookup
key — looking a key up gives the same result as looking its trimmed form up,
so a key padded with trailing spaces to the fixed field width and its
unpadded form are interchangeable. -/
theorem get_float_trim_insensitive (h : WCSHeader) (key : String) :
    h.get_float key = h.get_float (trimString key) := by
  unfold WCSHeader.get_float
  rw [trimString_idem]

/-! ## C2 -/

/-- The fixed `RADESYS` string table of `RadeSys::parse`. -/
def radeSysTable : List String := ["ICRS", "FK5", "FK4", "FK4-NO-E", "GAPPT"]

/-- C2: whenever both an `EQUINOX` numeric card and a `RADESYS` card with a
value in the fixed table are present, `CooSystem::parse` returns
`CUSTOM { radesys, equinox }` — unconditionally, regardless of `CTYPE1` (no
hypothesis below mentions the type codes). -/
theorem custom_frame_dominates_heuristic (h : WCSHeader) (s : String) (e : ℚ)
    (hr : h.get_radesys = .ok s)
    (hs : s ∈ radeSysTable)
    (he : h.get_float "EQUINOX" = some (.ok e)) :
    ∃ rs : RadeSys, RadeSys.parse h = .ok rs
      ∧ CooSystem.parse h = .ok (.CUSTOM rs e) := by
  have hrs : ∃ rs : RadeSys, RadeSys.parse h = .ok rs := by
    simp only [radeSysTable, List.mem_cons, List.mem_singleton] at hs
    unfold RadeSys.parse
    rw [hr]
    rcases hs with rfl | rfl | rfl | rfl | rfl | h5
    · exact ⟨RadeSys.ICRS, rfl⟩
    · exact ⟨RadeSys.Fk5, by rfl⟩
    · exact ⟨RadeSys.Fk4, by rfl⟩
    · exact ⟨RadeSys.Fk4NoE, by rfl⟩
    · exact ⟨RadeSys.GAPPT, by rfl⟩
    · exact absurd h5 (by simp)
  rcases hrs with ⟨rs, hrs⟩
  refine ⟨rs, hrs, ?_⟩
  unfold CooSystem.parse
  rw [he, hrs]

/-- A header carrying `RADESYS = ICRS`, `EQUINOX = 2000.0` and a `CTYPE1`
starting with `'G'`, on which the heuristic alone would say Galactic. -/
def hdrC2 : WCSHeader :=
  { naxis1 := 0, naxis2 := 0, ctype1 := "GLON-TAN", ctype2 := "GLAT-TAN",
    radesys := some "ICRS",
    cards := fun k => if k = "EQUINOX" then some 2000 else none }

/-- Witness for C2: the concrete header above resolves to
`CUSTOM { ICRS, 2000.0 }`, not `GALACTIC`. -/
theorem custom_frame_dominates_heuristic_witness :
    (∃ rs : RadeSys, RadeSys.parse hdrC2 = .ok rs
      ∧ CooSystem.parse hdrC2 = .ok (.CUSTOM rs 2000))
    ∧ CooSystem.parse hdrC2 ≠ .ok .GALACTIC := by
  have happ := custom_frame_dominates_heuristic hdrC2 "ICRS" 2000
    (by decide) (by decide) (by decide)
  refine ⟨happ, ?_⟩
  rcases happ with ⟨rs, _, hc⟩
  rw [hc]
  simp

/-! ## C5 -/

/-- The reason string of the conic `InitProjection` failures
(src/projection.rs lines 245, 265, 285, 305). -/
def thetaMsg : String := "PV_1 = theta_a must be defined as it has no default value"

/-- `parseConicParams` on an absent `PV_1`. -/
theorem parseConicParams_pv1_absent {h : WCSHeader} {name : String}
    (hp : h.get_float "PV_1    " = none) :
    parseConicParams name h = .error (.initProjection name thetaMsg) := by
  unfold parseConicParams
  rw [hp]
  rfl

/-- `parseConicParams` on a present `PV_1` with `PV_2` absent. -/
theorem parseConicParams_pv1_present_pv2_absent {h : WCSHeader} {name : String} {t : ℚ}
    (hp : h.get_float "PV_1    " = some (.ok t))
    (hq : h.get_float "PV_2    " = none) :
    parseConicParams name h = .ok (toRadians t, toRadians 0) := by
  unfold parseConicParams
  rw [hp, hq]
  rfl

/-- `parseConicParams` on present `PV_1` and `PV_2`. -/
theorem parseConicParams_pv1_pv2_present {h : WCSHeader} {name : String} {t e : ℚ}
    (hp : h.get_float "PV_1    " = some (.ok t))
    (hq : h.get_float "PV_2    " = some (.ok e)) :
    parseConicParams name h = .ok (toRadians t, toRadians e) := by
  unfold parseConicParams
  rw [hp, hq]
  rfl

/-- C5: for each of the four conic projections, an absent `PV_1` card is a
hard `InitProjection` failure naming the projection and the missing
`theta_a`; when `PV_1` is present, `theta_a` is read from it in degrees and
converted to radians, and `eta` comes from `PV_2` (converted likewise) with
default `0` (note `toRadians 0 = 0`). -/
theorem conic_theta_a_mandatory (h : WCSHeader) :
    (h.get_float "PV_1    " = none →
        Cop.parse_internal_proj_params h = .error (.initProjection "COP" thetaMsg)
      ∧ Coe.parse_internal_proj_params h = .error (.initProjection "COE" thetaMsg)
      ∧ Cod.parse_internal_proj_params h = .error (.initProjection "COD" thetaMsg)
      ∧ Coo.parse_internal_proj_params h = .error (.initProjection "COO" thetaMsg))
    ∧ (∀ t : ℚ, h.get_float "PV_1    " = some (.ok t) →
        (h.get_float "PV_2    " = none →
            Cop.parse_internal_proj_params h = .ok ⟨toRadians t, toRadians 0⟩
          ∧ Coe.parse_internal_proj_params h = .ok ⟨toRadians t, toRadians 0⟩
          ∧ Cod.parse_internal_proj_params h = .ok ⟨toRadians t, toRadians 0⟩
          ∧ Coo.parse_internal_proj_params h = .ok ⟨toRadians t, toRadians 0⟩)
        ∧ (∀ e : ℚ, h.get_float "PV_2    " = some (.ok e) →
            Cop.parse_internal_proj_params h = .ok ⟨toRadians t, toRadians e⟩
          ∧ Coe.parse_internal_proj_params h = .ok ⟨toRadians t, toRadians e⟩
          ∧ Cod.parse_internal_proj_params h = .ok ⟨toRadians t, toRadians e⟩
          ∧ Coo.parse_internal_proj_params h = .ok ⟨toRadians t, toRadians e⟩)) := by
  constructor
  · intro hp
    refine ⟨?_, ?_, ?_, ?_⟩ <;>
      simp [Cop.parse_internal_proj_params, Coe.parse_internal_proj_params,
        Cod.parse_internal_proj_params, Coo.parse_internal_proj_params,
        parseConicParams_pv1_absent hp, Except.map]
  · intro t hp
    constructor
    · intro hq
      refine ⟨?_, ?_, ?_, ?_⟩ <;>
        simp [Cop.parse_internal_proj_params, Coe.parse_internal_proj_params,
          Cod.parse_internal_proj_params, Coo.parse_internal_proj_params,
          parseConicParams_pv1_present_pv2_absent hp hq, Except.map]
    · intro e hq
      refine ⟨?_, ?_, ?_, ?_⟩ <;>
        simp [Cop.parse_internal_proj_params, Coe.parse_internal_proj_params,
          Cod.parse_internal_proj_params, Coo.parse_internal_proj_params,
          parseConicParams_pv1_pv2_present hp hq, Except.map]

/-- A header with no `PV_1` card. -/
def hdrC5absent : WCSHeader :=
  { naxis1 := 0, naxis2 := 0, ctype1 := "", ctype2 := "", radesys := none,
    cards := fun _ => none }

/-- A header with `PV_1 = 45` and no `PV_2`. -/
def hdrC5present : WCSHeader :=
  { naxis1 := 0, naxis2 := 0, ctype1 := "", ctype2 := "", radesys := none,
    cards := fun k => if k = "PV_1" then some 45 else none }

/-- Witness for C5: on a concrete header without `PV_1`, `COP` fails with the
`InitProjection` error; with `PV_1 = 45` it succeeds with
`theta_a = 45°` in radians and `eta = 0`. -/
theorem conic_theta_a_mandatory_witness :
    Cop.parse_internal_proj_params hdrC5absent = .error (.initProjection "COP" thetaMsg)
    ∧ Cop.parse_internal_proj_params hdrC5present = .ok ⟨toRadians 45, toRadians 0⟩ :=
  ⟨((conic_theta_a_mandatory hdrC5absent).1 rfl).1,
   (((conic_theta_a_mandatory hdrC5present).2 45 (by decide)).1 (by decide)).1⟩

/-! ## C3 and C7 -/

/-- `retrieve_sip_coeffs` on an absent order keyword: the family is absent. -/
theorem retrieve_sip_coeffs_order_absent {h : WCSHeader} {id : String}
    (hn : h.get_int (orderKey id) = none) :
    retrieve_sip_coeffs h id = .ok none := by
  unfold retrieve_sip_coeffs
  rw [hn]

/-- `retrieve_sip_coeffs` on a present order keyword: the coefficient grid is
produced (never an error), with one entry per enumerated pair. -/
theorem retrieve_sip_coeffs_order_present {h : WCSHeader} {id : String} {n : Int}
    (hn : h.get_int (orderKey id) = some (.ok n)) :
    retrieve_sip_coeffs h id =
      .ok (some ⟨(sipPairs n).map (fun p =>
        match h.get_float (coeffKey id p.1 p.2) with
        | some (.ok v) => v
        | _ => 0)⟩) := by
  have hgood : ∀ x ∈ (sipPairs n).map (fun p => h.get_float (coeffKey id p.1 p.2)),
      x = none ∨ ∃ v : ℚ, x = some (.ok v) := by
    intro x hx
    rcases List.mem_map.mp hx with ⟨p, _, rfl⟩
    exact get_float_cases h _
  have hc := collectE_map_getD _ hgood
  rw [List.map_map] at hc
  simp only [Function.comp_def] at hc
  simp only [retrieve_sip_coeffs, hn]
  rw [hc]
  simp only [List.map_map]
  rfl

/-- `retrieve_sip_coeffs` never fails. -/
theorem retrieve_sip_coeffs_ok (h : WCSHeader) (id : String) :
    ∃ r : Option SipCoeff, retrieve_sip_coeffs h id = .ok r := by
  rcases get_int_cases h (orderKey id) with hn | ⟨n, hn⟩
  · exact ⟨none, retrieve_sip_coeffs_order_absent hn⟩
  · exact ⟨_, retrieve_sip_coeffs_order_present hn⟩

/-- C3 (amended): a header with an `A_ORDER` card but no `B_ORDER` card does
*not* make distortion-model resolution fail — the absent `B` forward grid
defaults to the empty coefficient grid and `parse_sip` succeeds whenever the
axis lengths are present; the `A` and `B` families are not mandatory
together. -/
theorem b_order_absent_forward_defaults_empty (h : WCSHeader) (crpix1 crpix2 : ℚ)
    (ha : (h.get_int (orderKey "A")).isSome = true)
    (hb : h.get_int (orderKey "B") = none)
    (h1 : h.get_naxisn 1 ≠ none) (h2 : h.get_naxisn 2 ≠ none) :
    ∃ s : Sip, parse_sip h crpix1 crpix2 = .ok s ∧ s.ab_proj.b = ⟨[]⟩ := by
  rcases get_int_cases h (orderKey "A") with hn | ⟨n, hn⟩
  · rw [hn] at ha; simp at ha
  rcases retrieve_sip_coeffs_ok h "AP" with ⟨rap, hap⟩
  rcases retrieve_sip_coeffs_ok h "BP" with ⟨rbp, hbp⟩
  cases hn1 : h.get_naxisn 1 with
  | none => exact absurd hn1 h1
  | some naxis1 =>
  cases hn2 : h.get_naxisn 2 with
  | none => exact absurd hn2 h2
  | some naxis2 =>
  unfold parse_sip
  rw [retrieve_sip_coeffs_order_present hn, retrieve_sip_coeffs_order_absent hb,
    hap, hbp, hn1, hn2]
  cases rap <;> cases rbp <;> exact ⟨_, rfl, rfl⟩

/-- A header with `A_ORDER = 2`, no `B_ORDER`, and both axis lengths. -/
def hdrC3 : WCSHeader :=
  { naxis1 := 100, naxis2 := 100, ctype1 := "", ctype2 := "", radesys := none,
    cards := fun k => if k = "A_ORDER" then some 2 else none }

/-- Counterexample to C3 as stated: with `A_ORDER = 2` present and `B_ORDER`
absent, distortion-model resolution does not fail. -/
theorem b_order_absent_still_succeeds :
    (hdrC3.get_int (orderKey "A")).isSome = true
    ∧ hdrC3.get_int (orderKey "B") = none
    ∧ (parse_sip hdrC3 0 0).isOk = true := by
  refine ⟨by decide, by decide, by decide⟩

/-- Witness for the amended C3 on the same concrete header. -/
theorem b_order_absent_forward_defaults_empty_witness :
    ∃ s : Sip, parse_sip hdrC3 0 0 = .ok s ∧ s.ab_proj.b = ⟨[]⟩ :=
  b_order_absent_forward_defaults_empty hdrC3 0 0 (by decide) (by decide)
    (by decide) (by decide)

/-- C7 (amended): when exactly one of `AP_ORDER` and `BP_ORDER` is present,
the inverse model as a whole is absent — no error and no partial inverse
grid — and `parse_sip` succeeds provided the (independently mandatory) axis
lengths are present; without them it fails with `MandatoryKeywordsMissing`
for the axis, not because of the partial inverse data. -/
theorem partial_inverse_dropped_with_axes (h : WCSHeader) (crpix1 crpix2 : ℚ)
    (hone : (h.get_int (orderKey "AP") = none ∧ (h.get_int (orderKey "BP")).isSome = true)
          ∨ ((h.get_int (orderKey "AP")).isSome = true ∧ h.get_int (orderKey "BP") = none))
    (h1 : h.get_naxisn 1 ≠ none) (h2 : h.get_naxisn 2 ≠ none) :
    ∃ s : Sip, parse_sip h crpix1 crpix2 = .ok s ∧ s.ab_deproj = none := by
  rcases retrieve_sip_coeffs_ok h "A" with ⟨ra, hra⟩
  rcases retrieve_sip_coeffs_ok h "B" with ⟨rb, hrb⟩
  cases hn1 : h.get_naxisn 1 with
  | none => exact absurd hn1 h1
  | some naxis1 =>
  cases hn2 : h.get_naxisn 2 with
  | none => exact absurd hn2 h2
  | some naxis2 =>
  rcases hone with ⟨hap, hbp⟩ | ⟨hap, hbp⟩
  · rcases get_int_cases h (orderKey "BP") with hn | ⟨n, hn⟩
    · rw [hn] at hbp; simp at hbp
    unfold parse_sip
    rw [hra, hrb, retrieve_sip_coeffs_order_absent hap,
      retrieve_sip_coeffs_order_present hn, hn1, hn2]
    exact ⟨_, rfl, rfl⟩
  · rcases get_int_cases h (orderKey "AP") with hn | ⟨n, hn⟩
    · rw [hn] at hap; simp at hap
    unfold parse_sip
    rw [hra, hrb, retrieve_sip_coeffs_order_present hn,
      retrieve_sip_coeffs_order_absent hbp, hn1, hn2]
    exact ⟨_, rfl, rfl⟩

/-- A header with `AP_ORDER = 1`, no `BP_ORDER`, and no axis lengths. -/
def hdrC7bad : WCSHeader :=
  { naxis1 := 0, naxis2 := 0, ctype1 := "", ctype2 := "", radesys := none,
    cards := fun k => if k = "AP_ORDER" then some 1 else none }

/-- A header with `AP_ORDER = 1`, no `BP_ORDER`, and both axis lengths. -/
def hdrC7good : WCSHeader :=
  { naxis1 := 100, naxis2 := 100, ctype1 := "", ctype2 := "", radesys := none,
    cards := fun k => if k = "AP_ORDER" then some 1 else none }

/-- Counterexample to C7 as stated: a header in which exactly one of
`AP_ORDER`/`BP_ORDER` is present on which resolution does not succeed — the
axis lengths are missing, so `parse_sip` fails (with the axis error, not a
partial-inverse error). -/
theorem partial_inverse_missing_axis_fails :
    (hdrC7bad.get_int (orderKey "AP")).isSome = true
    ∧ hdrC7bad.get_int (orderKey "BP") = none
    ∧ parse_sip hdrC7bad 0 0 = .error (.mandatoryWCSKeywordsMissing "NAXIS1") := by
  refine ⟨by decide, by decide, by decide⟩

/-- Witness for the amended C7 on the concrete header with axis lengths. -/
theorem partial_inverse_dropped_with_axes_witness :
    ∃ s : Sip, parse_sip hdrC7good 0 0 = .ok s ∧ s.ab_deproj = none :=
  partial_inverse_dropped_with_axes hdrC7good 0 0
    (Or.inr ⟨by decide, by decide⟩) (by decide) (by decide)

/-! ## C4 -/

/-- The only error `get_ctype 1` can produce is the missing-`CTYPE` one. -/
theorem get_ctype_one_error {h : WCSHeader} {e : Error}
    (hc : h.get_ctype 1 = .error e) : e = .mandatoryWCSKeywordsMissing "CTYPE" := by
  by_cases hv : h.ctype1 = ""
  · have hr : h.get_ctype 1 = .error (.mandatoryWCSKeywordsMissing "CTYPE") := by
      simp only [WCSHeader.get_ctype, hv, if_pos]
    rw [hr] at hc
    exact (Except.error.inj hc).symm
  · have hr : h.get_ctype 1 = .ok h.ctype1 := by
      simp only [WCSHeader.get_ctype, if_neg hv]
    rw [hr] at hc
    exact absurd hc (by simp)

/-- C4 (amended): `RadeSys::parse` does return `UnrecognizedRadeSys(value)`
for a `RADESYS` string outside the fixed table, but `CooSystem::parse` never
surfaces that error — the failed custom path silently falls back to the
`CTYPE1` heuristic, and the only error reference-frame resolution can return
is `MandatoryKeywordsMissing("CTYPE")`. -/
theorem unrecognized_radesys_swallowed (h : WCSHeader) :
    (∀ s : String, h.get_radesys = .ok s → s ∉ radeSysTable →
        RadeSys.parse h = .error (.unrecognizedRadeSys s))
    ∧ (∀ e : Error, CooSystem.parse h = .error e →
        e = .mandatoryWCSKeywordsMissing "CTYPE") := by
  constructor
  · intro s hr hs
    simp only [radeSysTable, List.mem_cons, List.mem_singleton, not_or] at hs
    obtain ⟨h1, h2, h3, h4, h5, -⟩ := hs
    simp only [RadeSys.parse, hr, if_neg h1, if_neg h2, if_neg h3, if_neg h4, if_neg h5]
  · intro e hpe
    simp only [CooSystem.parse] at hpe
    split at hpe
    · exact absurd hpe (by simp)
    · split at hpe
      · rename_i eCT hCT
        have he : e = eCT := (Except.error.inj hpe).symm
        rw [he]
        exact get_ctype_one_error hCT
      · repeat' split at hpe
        all_goals exact absurd hpe (by simp)

/-- A header with an out-of-table `RADESYS`, a numeric `EQUINOX`, and an
equatorial `CTYPE1`. -/
def hdrC4 : WCSHeader :=
  { naxis1 := 0, naxis2 := 0, ctype1 := "RA---TAN", ctype2 := "DEC--TAN",
    radesys := some "GAIA",
    cards := fun k => if k = "EQUINOX" then some 2000 else none }

/-- Counterexample to C4 as stated: with `RADESYS = GAIA` (outside the
table) and `EQUINOX` present, reference-frame resolution does not surface
`UnrecognizedReferenceFrame` — it returns the heuristic result. -/
theorem unrecognized_radesys_not_surfaced :
    hdrC4.get_radesys = .ok "GAIA"
    ∧ RadeSys.parse hdrC4 = .error (.unrecognizedRadeSys "GAIA")
    ∧ CooSystem.parse hdrC4 = .ok .EQUATORIAL := by
  refine ⟨by decide, by decide, by decide⟩

/-- A header on which `CooSystem::parse` does fail: empty `CTYPE1`. -/
def hdrC4empty : WCSHeader :=
  { naxis1 := 0, naxis2 := 0, ctype1 := "", ctype2 := "", radesys := none,
    cards := fun _ => none }

/-- Witness for the amended C4: the first part applied to the `GAIA` header,
the second to a header on which resolution does fail. -/
theorem unrecognized_radesys_swallowed_witness :
    RadeSys.parse hdrC4 = .error (.unrecognizedRadeSys "GAIA")
    ∧ Error.mandatoryWCSKeywordsMissing "CTYPE" = .mandatoryWCSKeywordsMissing "CTYPE" :=
  ⟨(unrecognized_radesys_swallowed hdrC4).1 "GAIA" (by decide) (by decide),
   (unrecognized_radesys_swallowed hdrC4empty).2 _ (by decide)⟩

/-! ## C1 -/

/-- The partition of the input into consecutive 80-character records (the
final, possibly partial, chunk included). -/
def chunks80 (l : List Char) : List (List Char) :=
  match l with
  | [] => []
  | c :: rest => (c :: rest).take 80 :: chunks80 ((c :: rest).drop 80)
termination_by l.length
decreasing_by simp; omega

/-- Folding `processLine` over a record list, propagating the first panic —
the record-at-a-time reading of the `WCSHeader::new` loop. -/
def foldProcess (st : WCSHeader) : List (List Char) → Except HeaderPanic WCSHeader
  | [] => .ok st
  | ch :: cs =>
      match processLine st ch with
      | .error e => .error e
      | .ok st' => foldProcess st' cs

/-- One record either panics on a malformed `NAXIS*` integer or yields an
updated state: `processLine` never raises the out-of-bounds panic. -/
theorem processLine_cases (st : WCSHeader) (line : List Char) :
    processLine st line = .error .naxisParse
    ∨ ∃ st' : WCSHeader, processLine st line = .ok st' := by
  unfold processLine
  cases hkv : keyValue line with
  | none => exact Or.inr ⟨st, rfl⟩
  | some kv =>
      obtain ⟨k, v⟩ := kv
      dsimp only
      repeat' split
      all_goals first
        | exact Or.inl rfl
        | exact Or.inr ⟨_, rfl⟩

/-- `foldProcess` never raises the out-of-bounds panic. -/
theorem foldProcess_not_oob (cs : List (List Char)) : ∀ st : WCSHeader,
    foldProcess st cs ≠ .error .outOfBounds := by
  induction cs with
  | nil => intro st h; exact Except.noConfusion h
  | cons ch cs ih =>
      intro st h
      unfold foldProcess at h
      rcases processLine_cases st ch with hp | ⟨st', hp⟩ <;> rw [hp] at h
      · exact HeaderPanic.noConfusion (Except.error.inj h)
      · exact ih st' h

/-- The loop of `WCSHeader::new`, characterised: on an input whose length is
a multiple of 80 it reads the consecutive 80-character records; otherwise it
cannot return normally (it hits the out-of-bounds slice on the trailing
partial record, unless a `NAXIS*` parse panics first). -/
theorem parseSteps_spec (fuel : Nat) : ∀ (st : WCSHeader) (l : List Char),
    l.length ≤ fuel →
    (80 ∣ l.length → parseSteps fuel st l = foldProcess st (chunks80 l))
    ∧ (¬ 80 ∣ l.length → (parseSteps fuel st l).isOk = false) := by
  induction fuel with
  | zero =>
      intro st l hl
      have hnil : l = [] := List.eq_nil_of_length_eq_zero (Nat.le_zero.mp hl)
      subst hnil
      exact ⟨fun _ => by rw [chunks80]; rfl, fun hnd => absurd ⟨0, rfl⟩ hnd⟩
  | succ fuel ih =>
      intro st l hl
      cases l with
      | nil => exact ⟨fun _ => by rw [chunks80]; rfl, fun hnd => absurd ⟨0, rfl⟩ hnd⟩
      | cons c rest =>
          by_cases hlen : (c :: rest).length < 80
          · have hstep : parseSteps (fuel + 1) st (c :: rest) = .error .outOfBounds := by
              unfold parseSteps
              rw [if_pos hlen]
            constructor
            · intro hdvd
              have hge := Nat.le_of_dvd (by simp) hdvd
              omega
            · intro _
              rw [hstep]
              rfl
          · have hch : chunks80 (c :: rest)
                = (c :: rest).take 80 :: chunks80 ((c :: rest).drop 80) := by
              rw [chunks80]
            have hfuel : ((c :: rest).drop 80).length ≤ fuel := by
              rw [List.length_drop]
              simp only [List.length_cons] at hl hlen ⊢
              omega
            have hdl : ((c :: rest).drop 80).length = (c :: rest).length - 80 :=
              List.length_drop 80 (c :: rest)
            cases hpl : processLine st ((c :: rest).take 80) with
            | error e =>
                have hstep : parseSteps (fuel + 1) st (c :: rest) = .error e := by
                  unfold parseSteps
                  rw [if_neg hlen, hpl]
                constructor
                · intro hdvd
                  rw [hstep, hch]
                  unfold foldProcess
                  rw [hpl]
                · intro _
                  rw [hstep]
                  rfl
            | ok st' =>
                have hstep : parseSteps (fuel + 1) st (c :: rest)
                    = parseSteps fuel st' ((c :: rest).drop 80) := by
                  conv_lhs => rw [parseSteps]
                  rw [if_neg hlen, hpl]
                have ihm := ih st' ((c :: rest).drop 80) hfuel
                constructor
                · intro hdvd
                  have hdvd' : 80 ∣ ((c :: rest).drop 80).length := by
                    rw [hdl]
                    simp only [List.length_cons] at hdvd hlen ⊢
                    omega
                  rw [hstep, hch]
                  unfold foldProcess
                  rw [hpl]
                  exact ihm.1 hdvd'
                · intro hnd
                  have hnd' : ¬ 80 ∣ ((c :: rest).drop 80).length := by
                    rw [hdl]
                    simp only [List.length_cons] at hnd hlen ⊢
                    omega
                  rw [hstep]
                  exact ihm.2 hnd'

/-- C1 (amended): the header parser reads consecutive 80-character records,
but an input whose length is not a multiple of 80 is *not* handled by
ignoring the trailing partial record: the parser goes out of bounds on the
short remainder (or panics earlier on a malformed `NAXIS*` card) and never
returns a snapshot; when the length is a multiple of 80, parsing is exactly
the record-by-record fold and the out-of-bounds panic cannot occur. -/
theorem header_requires_full_records (s : String) :
    (80 ∣ s.data.length →
        WCSHeader.new s = foldProcess emptyHeader (chunks80 s.data)
      ∧ WCSHeader.new s ≠ .error .outOfBounds)
    ∧ (¬ 80 ∣ s.data.length → (WCSHeader.new s).isOk = false) := by
  have hspec := parseSteps_spec s.data.length emptyHeader s.data (le_refl _)
  constructor
  · intro hdvd
    have h1 : WCSHeader.new s = foldProcess emptyHeader (chunks80 s.data) :=
      hspec.1 hdvd
    refine ⟨h1, ?_⟩
    rw [h1]
    exact foldProcess_not_oob _ _
  · exact hspec.2

/-- Counterexample to C1 as stated: on the one-character input — whose length
is not a multiple of 80 — the parser does not ignore the partial record and
succeed; it goes out of bounds. -/
theorem header_partial_record_counterexample :
    ¬ (80 ∣ ("X" : String).data.length)
    ∧ WCSHeader.new "X" = .error .outOfBounds := by
  constructor
  · rintro ⟨c, hc⟩
    simp at hc
    omega
  · rfl

/-- 160 blank characters: two full records. -/
def blank160 : String := String.mk (List.replicate 160 ' ')

/-- Witness for the amended C1: a two-record input never hits the
out-of-bounds panic, while the one-character input does not parse. -/
theorem header_requires_full_records_witness :
    WCSHeader.new blank160 ≠ .error .outOfBounds
    ∧ (WCSHeader.new "X").isOk = false :=
  ⟨((header_requires_full_records blank160).1 ⟨2, rfl⟩).2,
   (header_requires_full_records "X").2 (by rintro ⟨c, hc⟩; simp at hc; omega)⟩

/-! ## C6 -/

/-- `dropWhile` jumps over a block whose members all satisfy the
predicate. -/
theorem dropWhile_append_of_forall {α : Type _} {p : α → Bool} {l1 l2 : List α}
    (h : ∀ x ∈ l1, p x = true) : (l1 ++ l2).dropWhile p = l2.dropWhile p := by
  induction l1 with
  | nil => rfl
  | cons a t ih =>
      rw [List.cons_append, List.dropWhile_cons, if_pos (h a (List.mem_cons_self a t))]
      exact ih (fun x hx => h x (List.mem_cons_of_mem a hx))

/-- Index lookup into the `ZPN` key table. -/
theorem zpnKeys_getD (i : Nat) (hi : i < 21) : zpnKeys.getD i "" = zpnKeys[i] := by
  rw [List.getD_eq_getElem?_getD, List.getElem?_eq_getElem (show i < zpnKeys.length from hi)]
  rfl

/-- C6: the `ZPN` coefficient list is built by scanning from `PV_20` down,
dropping the unbroken trailing run of absent entries, stopping at the first
present entry (index `k` below), and reversing back, with absent interior
entries defaulted to `0`: the result has exactly `k + 1` coefficients, the
`i`-th being the value of `PV_i` (or `0` when absent). -/
theorem zpn_trailing_trim (h : WCSHeader) (k : Nat) (t : ℚ) (hk : k ≤ 20)
    (hpres : h.get_float (zpnKeys.getD k "") = some (.ok t))
    (habs : ∀ i : Nat, k < i → i ≤ 20 → h.get_float (zpnKeys.getD i "") = none) :
    Zpn.parseCoeffs h =
      .ok ((List.range (k + 1)).map (fun i =>
        match h.get_float (zpnKeys.getD i "") with
        | some (.ok v) => v
        | _ => 0))
    ∧ ((List.range (k + 1)).map (fun i =>
        match h.get_float (zpnKeys.getD i "") with
        | some (.ok v) => v
        | _ => 0)).length = k + 1 := by
  have hzlen : zpnKeys.length = 21 := rfl
  have hvlen : (zpnKeys.map h.get_float).length = 21 := by
    rw [List.length_map, hzlen]
  have hvalk : ∀ hk' : k < (zpnKeys.map h.get_float).length,
      (zpnKeys.map h.get_float)[k] = some (.ok t) := by
    intro hk'
    rw [List.getElem_map, ← zpnKeys_getD k (by omega)]
    exact hpres
  -- the trailing entries (indices above k) are all absent, hence skipped
  have hsufskip : ∀ x ∈ (zpnKeys.map h.get_float).drop (k + 1), zpnSkip x = true := by
    intro x hx
    rcases List.mem_iff_getElem.mp hx with ⟨i, hi, rfl⟩
    have hi' : k + 1 + i ≤ 20 := by
      rw [List.length_drop, hvlen] at hi
      omega
    rw [List.getElem_drop, List.getElem_map, ← zpnKeys_getD (k + 1 + i) (by omega),
      habs (k + 1 + i) (by omega) hi']
    rfl
  -- the kept prefix, reversed, starts with the present entry at index k
  have hpre : (zpnKeys.map h.get_float).take (k + 1)
      = (zpnKeys.map h.get_float).take k ++ [some (.ok t)] := by
    rw [List.take_succ, List.getElem?_eq_getElem (show k < (zpnKeys.map h.get_float).length by omega),
      hvalk (by omega)]
    rfl
  have hsplit : (zpnKeys.map h.get_float).reverse
      = ((zpnKeys.map h.get_float).drop (k + 1)).reverse
        ++ ((zpnKeys.map h.get_float).take (k + 1)).reverse := by
    rw [← List.reverse_append, List.take_append_drop]
  have hpipe : (zpnKeys.reverse.map h.get_float).dropWhile zpnSkip
      = some (.ok t) :: ((zpnKeys.map h.get_float).take k).reverse := by
    rw [List.map_reverse, hsplit,
      dropWhile_append_of_forall (fun x hx => hsufskip x (List.mem_reverse.mp hx)),
      hpre, List.reverse_append]
    rw [show ([some (Except.ok t)] : List (Option (Except Error ℚ))).reverse
        = [some (.ok t)] from rfl]
    rw [List.singleton_append, List.dropWhile_cons, if_neg (by simp [zpnSkip])]
  -- the kept entries are all absent-or-Ok
  have hgood : ∀ x ∈ (some (Except.ok t) :: ((zpnKeys.map h.get_float).take k).reverse :
      List (Option (Except Error ℚ))), x = none ∨ ∃ v : ℚ, x = some (.ok v) := by
    intro x hx
    rcases List.mem_cons.mp hx with rfl | hx'
    · exact Or.inr ⟨t, rfl⟩
    · have hx'' := (List.take_sublist k (zpnKeys.map h.get_float)).subset
        (List.mem_reverse.mp hx')
      rcases List.mem_map.mp hx'' with ⟨key, _, rfl⟩
      exact get_float_cases h key
  have hcoll := collectE_map_getD _ hgood
  -- assemble the pipeline
  constructor
  · unfold Zpn.parseCoeffs
    rw [hpipe, hcoll]
    show Except.ok _ = _
    congr 1
    -- reverse the collected list and compare with the range form
    rw [List.map_cons, List.reverse_cons, List.map_reverse, List.reverse_reverse,
      List.range_succ, List.map_append]
    congr 1
    · -- interior entries
      apply List.ext_getElem
      · rw [List.length_map, List.length_map, List.length_take, List.length_range, hvlen]
        omega
      · intro i h1 h2
        rw [List.getElem_map, List.getElem_map, List.getElem_take, List.getElem_map,
          List.getElem_range, ← zpnKeys_getD i
            (by rw [List.length_map, List.length_take, hvlen] at h1; omega)]
    · -- the entry at index k itself
      rw [List.map_singleton, hpres]
  · rw [List.length_map, List.length_range]

/-- A header with `PV_0 = 1.0` and `PV_1 = 2.0` and no other cards. -/
def hdrC6 : WCSHeader :=
  { naxis1 := 0, naxis2 := 0, ctype1 := "", ctype2 := "", radesys := none,
    cards := fun k => if k = "PV_0" then some 1 else if k = "PV_1" then some 2 else none }

/-- Witness for C6: the concrete header yields exactly the two-coefficient
polynomial `[1.0, 2.0]`, not a 21-element array. -/
theorem zpn_trailing_trim_witness :
    Zpn.parseCoeffs hdrC6 = .ok [1, 2] ∧ ([(1 : ℚ), 2]).length = 2 := by
  have happ := zpn_trailing_trim hdrC6 1 2 (by omega) (by decide)
    (by intro i h1 h2; interval_cases i <;> decide)
  exact ⟨happ.1.trans (by decide), rfl⟩

/-! ## C8 -/

/-- Counting the elements of `range N` below a bound. -/
theorem length_filter_range_lt (N K : Nat) :
    ((List.range N).filter (fun j => decide (j < K))).length = min N K := by
  induction N with
  | zero => simp
  | succ N ih =>
      rw [List.range_succ, List.filter_append, List.length_append, ih]
      by_cases h : N < K
      · rw [List.filter_cons, if_pos (by simpa using h), List.filter_nil]
        simp only [List.length_cons, List.length_nil]
        omega
      · rw [List.filter_cons, if_neg (by simpa using h), List.filter_nil]
        simp only [List.length_nil]
        omega

/-- Adding one to every summand adds the length. -/
theorem sum_map_add_one {α : Type _} (l : List α) (g : α → Nat) :
    (l.map (fun x => g x + 1)).sum = (l.map g).sum + l.length := by
  induction l with
  | nil => rfl
  | cons a t ih =>
      simp only [List.map_cons, List.sum_cons, List.length_cons, ih]
      omega

/-- The Gauss sum `N + (N-1) + ... + 1`, doubled. -/
theorem sum_range_sub_mul_two (M : Nat) :
    (((List.range M).map (fun i => M - i)).sum) * 2 = M * (M + 1) := by
  induction M with
  | zero => rfl
  | succ M ih =>
      rw [List.range_succ, List.map_append, List.sum_append]
      have hcongr : (List.range M).map (fun i => M + 1 - i)
          = (List.range M).map (fun i => (M - i) + 1) := by
        apply List.map_congr_left
        intro i hi
        rw [List.mem_range] at hi
        omega
      rw [hcongr, sum_map_add_one (List.range M) (fun i => M - i)]
      simp only [List.map_cons, List.map_nil, List.sum_cons, List.sum_nil, List.length_range]
      rw [show M + 1 - M = 1 from by omega]
      nlinarith [ih]

/-- The number of enumerated second coordinates, for a fixed first
coordinate `i ≥ 0`. -/
theorem sip_inner_count (n i : Int) (hi : 0 ≤ i) :
    (((rangeIncl n).map (fun j => (i, j))).filter
        (fun p => decide (p.1 + p.2 ≤ n))).length
      = (n + 1).toNat - i.toNat := by
  rw [List.filter_map, List.length_map]
  have h2 : List.filter ((fun p : Int × Int => decide (p.1 + p.2 ≤ n)) ∘ (fun j => (i, j)))
        (rangeIncl n)
      = List.filter (fun j : Int => decide (i + j ≤ n)) (rangeIncl n) :=
    List.filter_congr (fun j _ => rfl)
  rw [h2, rangeIncl, List.filter_map, List.length_map]
  have h3 : List.filter ((fun j : Int => decide (i + j ≤ n)) ∘ Int.ofNat)
        (List.range (n + 1).toNat)
      = List.filter (fun a : Nat => decide (a < (n + 1 - i).toNat))
        (List.range (n + 1).toNat) :=
    List.filter_congr (fun a _ => decide_eq_decide.mpr
      (by simp only [Function.comp_apply, Int.ofNat_eq_coe]; omega))
  rw [h3, length_filter_range_lt]
  omega

/-- C8: the `(i, j)` enumeration of `retrieve_sip_coeffs` for a declared
non-negative order `n` covers exactly the pairs with `0 ≤ i`, `0 ≤ j`,
`i + j ≤ n`, its size is `(n+1)(n+2)/2`, and the produced coefficient list
has exactly that many entries. -/
theorem sip_coefficient_count (n : Int) (hn : 0 ≤ n) :
    (∀ p : Int × Int, p ∈ sipPairs n ↔ 0 ≤ p.1 ∧ 0 ≤ p.2 ∧ p.1 + p.2 ≤ n)
    ∧ ((sipPairs n).length : Int) * 2 = (n + 1) * (n + 2)
    ∧ ((sipPairs n).length : Int) = (n + 1) * (n + 2) / 2
    ∧ (∀ (h : WCSHeader) (id : String), h.get_int (orderKey id) = some (.ok n) →
        ∃ cs : List ℚ, retrieve_sip_coeffs h id = .ok (some ⟨cs⟩)
          ∧ cs.length = (sipPairs n).length) := by
  have hmem : ∀ p : Int × Int, p ∈ sipPairs n ↔ 0 ≤ p.1 ∧ 0 ≤ p.2 ∧ p.1 + p.2 ≤ n := by
    intro p
    constructor
    · intro hp
      rw [sipPairs, List.mem_filter] at hp
      obtain ⟨hmm, hle⟩ := hp
      rw [List.mem_flatMap] at hmm
      obtain ⟨i, hi, hmm2⟩ := hmm
      rw [List.mem_map] at hmm2
      obtain ⟨j, hj, rfl⟩ := hmm2
      rw [rangeIncl, List.mem_map] at hi hj
      obtain ⟨a, _, rfl⟩ := hi
      obtain ⟨b, _, rfl⟩ := hj
      simp only [decide_eq_true_eq, Int.ofNat_eq_coe] at hle ⊢
      exact ⟨by omega, by omega, by omega⟩
    · rintro ⟨h1, h2, h3⟩
      rw [sipPairs, List.mem_filter]
      refine ⟨?_, by simpa using h3⟩
      rw [List.mem_flatMap]
      refine ⟨p.1, ?_, ?_⟩
      · rw [rangeIncl, List.mem_map]
        exact ⟨p.1.toNat, by rw [List.mem_range]; omega,
          by simp only [Int.ofNat_eq_coe]; omega⟩
      · rw [List.mem_map]
        refine ⟨p.2, ?_, rfl⟩
        rw [rangeIncl, List.mem_map]
        exact ⟨p.2.toNat, by rw [List.mem_range]; omega,
          by simp only [Int.ofNat_eq_coe]; omega⟩
  have hlen2 : (sipPairs n).length * 2 = (n + 1).toNat * ((n + 1).toNat + 1) := by
    rw [sipPairs, List.filter_flatMap, List.length_flatMap]
    simp only [Function.comp_def]
    have hmapeq : List.map (fun i => (List.filter (fun p : Int × Int => decide (p.1 + p.2 ≤ n))
          (List.map (fun j => (i, j)) (rangeIncl n))).length) (rangeIncl n)
        = List.map (fun iN : Nat => (n + 1).toNat - iN) (List.range (n + 1).toNat) := by
      show List.map (fun i => (List.filter (fun p : Int × Int => decide (p.1 + p.2 ≤ n))
          (List.map (fun j => (i, j)) (rangeIncl n))).length)
          (List.map Int.ofNat (List.range (n + 1).toNat))
        = List.map (fun iN : Nat => (n + 1).toNat - iN) (List.range (n + 1).toNat)
      rw [List.map_map]
      apply List.map_congr_left
      intro a _
      show (List.filter (fun p : Int × Int => decide (p.1 + p.2 ≤ n))
          (List.map (fun j => (Int.ofNat a, j)) (rangeIncl n))).length = (n + 1).toNat - a
      rw [show (List.filter (fun p : Int × Int => decide (p.1 + p.2 ≤ n))
            (List.map (fun j => (Int.ofNat a, j)) (rangeIncl n))).length
          = (((rangeIncl n).map (fun j => (Int.ofNat a, j))).filter
            (fun p => decide (p.1 + p.2 ≤ n))).length from rfl,
        sip_inner_count n (Int.ofNat a) (by simp only [Int.ofNat_eq_coe]; omega)]
      simp only [Int.ofNat_eq_coe, Int.toNat_ofNat]
    rw [hmapeq, sum_range_sub_mul_two]
  have hM : ((((n + 1).toNat) : Int)) = n + 1 := by omega
  have hcast : ((sipPairs n).length : Int) * 2 = (n + 1) * (n + 2) := by
    have hc := congrArg (fun m : Nat => (m : Int)) hlen2
    push_cast at hc
    rw [hM] at hc
    calc ((sipPairs n).length : Int) * 2 = (n + 1) * (n + 1 + 1) := hc
    _ = (n + 1) * (n + 2) := by ring
  refine ⟨hmem, hcast, by omega, ?_⟩
  intro h id hord
  refine ⟨_, retrieve_sip_coeffs_order_present hord, ?_⟩
  rw [List.length_map]

/-- Witness for C8 at order `n = 2`: the pair `(1, 1)` is enumerated, and
the enumeration has `(2+1)(2+2)/2 = 6` entries. -/
theorem sip_coefficient_count_witness :
    ((1, 1) ∈ sipPairs 2 ↔ (0 : Int) ≤ 1 ∧ (0 : Int) ≤ 1 ∧ (1 : Int) + 1 ≤ 2)
    ∧ ((sipPairs 2).length : Int) = (2 + 1) * (2 + 2) / 2 :=
  ⟨(sip_coefficient_count 2 (by decide)).1 (1, 1),
   (sip_coefficient_count 2 (by decide)).2.2.1⟩

end Wcs
